import Mathlib

/-!
Verification of the GUI-to-Mermaid diagram editor (`src/main.py`).

Shallow embedding conventions:
* canvas coordinates and dimensions are exact rationals (`ℚ`), matching the
  exact arithmetic the program performs on Python ints and halved ints;
* the tkinter canvas, widgets and menus are external collaborators: only the
  model-level fields of `Node`, `Edge` and `DiagramEditor` are embedded,
  together with the "rendered" line coordinates an `Edge` keeps on the canvas;
* Python object references to nodes are represented by the node's `id`
  (ids are generated by a non-reusing counter, so they are unique in every
  reachable state and a reference is recovered by `findNode`);
* an operation that can raise a Python exception is embedded as a function
  returning the mutated state together with `Option PyErr`: the state returned
  is the one left behind by the statements that executed before the raise,
  exactly as an escaping Python exception leaves the object.
-/

namespace GUIToMermaid

/-- Runtime failures of the embedded code.  `attributeError` models Python's
`AttributeError` (reading `width`/`height` on a node built with an unrecognized
shape, whose `__init__` sets neither).  `invalidShapeError` is the error named
by the specification; the implementation defines no such exception and never
raises it, the constructor exists only so the specified behaviour can be
stated and compared with the implemented one. -/
inductive PyErr where
  | attributeError
  | invalidShapeError
deriving Repr, DecidableEq

/-- A node of the diagram (`class Node`).  `width`/`height` are `Option`s
because `Node.__init__` assigns them only when the shape is `"rectangle"` or
`"diamond"`; for any other shape the Python object simply lacks the attributes
and later reads raise `AttributeError`. -/
structure Node where
  id : String
  x : ℚ
  y : ℚ
  text : String
  shape : String
  fill : String
  width : Option ℚ
  height : Option ℚ
deriving Repr, DecidableEq

/-- `Node.__init__` (minus the canvas drawing, which touches no model field). -/
def Node.init (node_id : String) (x y : ℚ) (text shape fill : String) : Node :=
  { id := node_id, x := x, y := y, text := text, shape := shape, fill := fill,
    width := if shape = "rectangle" then some 100
             else if shape = "diamond" then some 100 else none,
    height := if shape = "rectangle" then some 50
              else if shape = "diamond" then some 60 else none }

/-- `Node.get_center`: midpoint of the bounding box; reading `width`/`height`
raises `AttributeError` (here: `none`) when the shape was unrecognized. -/
def Node.get_center (n : Node) : Option (ℚ × ℚ) :=
  match n.width, n.height with
  | some w, some h => some (n.x + w / 2, n.y + h / 2)
  | _, _ => none

/-- `Node.contains_point`: `self.x <= x <= self.x + self.width and
self.y <= y <= self.y + self.height`.  The chained comparisons and `and`
short-circuit, so `width` is only read when `self.x <= x` holds and `height`
only when the x-range test already succeeded, which the embedding mirrors. -/
def Node.contains_point (n : Node) (x y : ℚ) : Except PyErr Bool :=
  if n.x ≤ x then
    match n.width with
    | none => .error .attributeError
    | some w =>
      if x ≤ n.x + w then
        if n.y ≤ y then
          match n.height with
          | none => .error .attributeError
          | some h => .ok (decide (y ≤ n.y + h))
        else .ok false
      else .ok false
  else .ok false

/-- `Node.update_position`: sets `self.x`, `self.y` (the remaining statements
only move canvas items). -/
def Node.update_position (n : Node) (new_x new_y : ℚ) : Node :=
  { n with x := new_x, y := new_y }

/-- `Node.update_text`. -/
def Node.update_text (n : Node) (new_text : String) : Node :=
  { n with text := new_text }

/-- `Node.update_color`. -/
def Node.update_color (n : Node) (new_color : String) : Node :=
  { n with fill := new_color }

/-- An edge (`class Edge`).  `source`/`target` stand for the Python references
to the two `Node` objects (represented by their immutable ids).  `line` is the
rendered arrow's canvas coordinates `((sx, sy), (tx, ty))` and `label_pos` the
canvas position of the label text item (`none` when no label item exists, i.e.
the label was empty at draw time). -/
structure Edge where
  source : String
  target : String
  label : String
  line : (ℚ × ℚ) × (ℚ × ℚ)
  label_pos : Option (ℚ × ℚ)
deriving Repr, DecidableEq

/-- `Edge.__init__` plus its `draw`: reads both endpoint centers (which can
raise `AttributeError`) and creates the line item, plus a label item at the
segment midpoint when the label is non-empty (`if self.label:`). -/
def Edge.init (source target : Node) (label : String) : Except PyErr Edge :=
  match source.get_center, target.get_center with
  | some sc, some tc =>
    .ok { source := source.id,
          target := target.id,
          label := label,
          line := (sc, tc),
          label_pos := if label ≠ "" then
              some ((sc.1 + tc.1) / 2, (sc.2 + tc.2) / 2) else none }
  | _, _ => .error .attributeError

/-- Dereference a stored node reference: the first node with the given id.
In every reachable state the referenced node is a member of `nodes`, so the
lookup succeeds. -/
def findNode (nodes : List Node) (i : String) : Option Node :=
  nodes.find? (fun n => n.id = i)

/-- `Edge.update_position`: re-reads both endpoint centers and moves the line
item (and the label item, if one exists) accordingly.  The node list stands
for the heap holding the two referenced `Node` objects. -/
def Edge.update_position (nodes : List Node) (e : Edge) : Except PyErr Edge :=
  match findNode nodes e.source, findNode nodes e.target with
  | some sn, some tn =>
    match sn.get_center, tn.get_center with
    | some sc, some tc =>
      .ok { e with
            line := (sc, tc),
            label_pos := if e.label_pos.isSome then
                some ((sc.1 + tc.1) / 2, (sc.2 + tc.2) / 2) else e.label_pos }
    | _, _ => .error .attributeError
  | _, _ => .error .attributeError

/-- The editor state (`class DiagramEditor`): the Diagram Model (`nodes`,
`edges`, `node_counter`) and the interaction state (`arrow_source`,
`current_edit_node`, `text_editor` — whether the Entry overlay exists —,
`editor_pos` — the canvas position of that overlay —, the drag fields and the
position captured by the last right click).  Widgets themselves are external.
`nodes` is the Python `dict` keyed by id: insertion-ordered, and since ids are
never issued twice an append models each insertion. -/
structure DiagramEditor where
  nodes : List Node
  edges : List Edge
  node_counter : Nat
  arrow_source : Option String
  current_edit_node : Option String
  text_editor : Bool
  editor_pos : Option (ℚ × ℚ)
  dragging_node : Option String
  drag_offset_x : ℚ
  drag_offset_y : ℚ
  context_menu_x : ℚ
  context_menu_y : ℚ
deriving Repr, DecidableEq

/-- The state `DiagramEditor.__init__` sets up (the `context_menu_x/y`
attributes are first assigned on a right click; they are carried here with
value 0, and every creation in the model goes through `on_right_click`, which
overwrites them). -/
def DiagramEditor.init : DiagramEditor :=
  { nodes := [], edges := [], node_counter := 0, arrow_source := none,
    current_edit_node := none, text_editor := false, editor_pos := none,
    dragging_node := none, drag_offset_x := 0, drag_offset_y := 0,
    context_menu_x := 0, context_menu_y := 0 }

/-- The id issued when the counter has the given value: `chr(65 + c)` while
`c < 26`, otherwise `"N" + str(c)`. -/
def mk_node_id (c : Nat) : String :=
  if c < 26 then String.mk [Char.ofNat (65 + c)] else "N" ++ Nat.repr c

/-- `DiagramEditor.get_new_node_id`: returns the id for the current counter
value and increments the counter. -/
def DiagramEditor.get_new_node_id (s : DiagramEditor) : String × DiagramEditor :=
  (mk_node_id s.node_counter, { s with node_counter := s.node_counter + 1 })

/-- `DiagramEditor.on_right_click`: posts the context menu (external) and
records the click position for a subsequent creation. -/
def DiagramEditor.on_right_click (s : DiagramEditor) (ex ey : ℚ) : DiagramEditor :=
  { s with context_menu_x := ex, context_menu_y := ey }

/-- `DiagramEditor.stop_editing` (and `remove_text_editor` /
`hide_palette_panel`, whose model-level effect is clearing the overlay). -/
def DiagramEditor.stop_editing (s : DiagramEditor) : DiagramEditor :=
  { s with text_editor := false, editor_pos := none, current_edit_node := none }

/-- `DiagramEditor.start_editing_node`.  Mirrors the statement order of the
source: a different open session is committed first, `current_edit_node` is
set, an existing Entry is refocused (early return), otherwise the Entry is
created, the node's center is read — the read that raises `AttributeError` for
a node of unrecognized shape, after `current_edit_node` and the Entry are
already in place — the overlay is positioned there, and a pending connection
source is cleared. -/
def DiagramEditor.start_editing_node (s : DiagramEditor) (node : Node) :
    DiagramEditor × Option PyErr :=
  let s := if s.current_edit_node.isSome ∧ s.current_edit_node ≠ some node.id
           then s.stop_editing else s
  let s := { s with current_edit_node := some node.id }
  if s.text_editor then (s, none)
  else
    let s := { s with text_editor := true }
    match node.get_center with
    | none => (s, some .attributeError)
    | some c =>
      let s := { s with editor_pos := some c }
      let s := if s.arrow_source.isSome then { s with arrow_source := none } else s
      (s, none)

/-- `DiagramEditor.create_node_at`: generates an id, constructs the `Node` at
the last context-menu position, inserts it into `nodes`, then opens the
editing session on it.  Note that the insertion precedes `start_editing_node`,
so a failure there leaves the new node in the model. -/
def DiagramEditor.create_node_at (s : DiagramEditor) (shape : String) :
    DiagramEditor × Option PyErr :=
  let x := s.context_menu_x
  let y := s.context_menu_y
  let (node_id, s) := s.get_new_node_id
  let new_node := Node.init node_id x y "Node" shape "#FFFFFF"
  let s := { s with nodes := s.nodes ++ [new_node] }
  s.start_editing_node new_node

/-- Loop body of `DiagramEditor.get_node_at`: first node containing the point,
in insertion order; a raise from `contains_point` escapes. -/
def get_node_at_list : List Node → ℚ → ℚ → Except PyErr (Option Node)
  | [], _, _ => .ok none
  | n :: rest, x, y =>
    match n.contains_point x y with
    | .error e => .error e
    | .ok true => .ok (some n)
    | .ok false => get_node_at_list rest x y

/-- `DiagramEditor.get_node_at`. -/
def DiagramEditor.get_node_at (s : DiagramEditor) (x y : ℚ) :
    Except PyErr (Option Node) :=
  get_node_at_list s.nodes x y

/-- `DiagramEditor.on_left_click`.  With a pending connection source: a click
on a different node appends the new edge and clears the source (clearing its
highlight is canvas-only); a click on the source itself or on empty canvas
does nothing, and in every case the handler returns without falling through.
Without a pending source: a click on a node opens the editing session and
starts the drag (capturing the offset); a click on empty canvas closes any
open session. -/
def DiagramEditor.on_left_click (s : DiagramEditor) (ex ey : ℚ) :
    DiagramEditor × Option PyErr :=
  match s.arrow_source with
  | some srcId =>
    match s.get_node_at ex ey with
    | .error e => (s, some e)
    | .ok none => (s, none)
    | .ok (some node) =>
      if node.id ≠ srcId then
        match findNode s.nodes srcId with
        | none => (s, some .attributeError)
        | some src =>
          match Edge.init src node "" with
          | .error e => (s, some e)
          | .ok new_edge =>
            ({ s with edges := s.edges ++ [new_edge], arrow_source := none }, none)
      else (s, none)
  | none =>
    match s.get_node_at ex ey with
    | .error e => (s, some e)
    | .ok (some node) =>
      match s.start_editing_node node with
      | (s, some e) => (s, some e)
      | (s, none) =>
        ({ s with dragging_node := some node.id,
                  drag_offset_x := ex - node.x,
                  drag_offset_y := ey - node.y }, none)
    | .ok none => (s.stop_editing, none)

/-- `DiagramEditor.on_double_click`: on a node, closes any edit session, makes
the node the pending connection source and highlights it (canvas-only). -/
def DiagramEditor.on_double_click (s : DiagramEditor) (ex ey : ℚ) :
    DiagramEditor × Option PyErr :=
  match s.get_node_at ex ey with
  | .error e => (s, some e)
  | .ok (some node) => ({ s.stop_editing with arrow_source := some node.id }, none)
  | .ok none => (s, none)

/-- Loop of `on_drag` over `self.edges`: each edge whose source or target is
the dragged node is repositioned; a raise aborts the loop, leaving the
already-processed prefix updated and the rest untouched. -/
def update_edges (nodes : List Node) (dragId : String) :
    List Edge → List Edge × Option PyErr
  | [] => ([], none)
  | e :: rest =>
    if e.source = dragId ∨ e.target = dragId then
      match e.update_position nodes with
      | .error err => (e :: rest, some err)
      | .ok e2 =>
        let (rest2, err) := update_edges nodes dragId rest
        (e2 :: rest2, err)
    else
      let (rest2, err) := update_edges nodes dragId rest
      (e :: rest2, err)

/-- `DiagramEditor.on_drag`: while a drag is active, moves the dragged node to
the pointer position minus the captured offset (mutating the shared `Node`
object, i.e. the entry of `nodes` with the dragged id — ids are unique in
reachable states), repositions the edit overlay when it belongs to this node,
then repositions every incident edge. -/
def DiagramEditor.on_drag (s : DiagramEditor) (ex ey : ℚ) :
    DiagramEditor × Option PyErr :=
  match s.dragging_node with
  | none => (s, none)
  | some dragId =>
    let new_x := ex - s.drag_offset_x
    let new_y := ey - s.drag_offset_y
    let nodes2 := s.nodes.map (fun n =>
      if n.id = dragId then n.update_position new_x new_y else n)
    let s := { s with nodes := nodes2 }
    if s.current_edit_node = some dragId ∧ s.text_editor then
      match (findNode nodes2 dragId).bind Node.get_center with
      | none => (s, some .attributeError)
      | some c =>
        let s := { s with editor_pos := some c }
        let (edges2, err) := update_edges nodes2 dragId s.edges
        ({ s with edges := edges2 }, err)
    else
      let (edges2, err) := update_edges nodes2 dragId s.edges
      ({ s with edges := edges2 }, err)

/-- `DiagramEditor.on_release`: clears the drag unconditionally. -/
def DiagramEditor.on_release (s : DiagramEditor) : DiagramEditor :=
  { s with dragging_node := none }

/-- `DiagramEditor.change_color`: recolors the currently edited node, no-op
otherwise. -/
def DiagramEditor.change_color (s : DiagramEditor) (new_color : String) :
    DiagramEditor :=
  match s.current_edit_node with
  | some i =>
    { s with nodes := s.nodes.map (fun n =>
        if n.id = i then n.update_color new_color else n) }
  | none => s

/-- Python's `str.lower()` on a fill value, embedded as character-wise ASCII
lowering (the color keys compared against are ASCII hex strings, on which the
two coincide). -/
def py_lower (s : String) : String := String.mk (s.data.map Char.toLower)

/-- The five predefined color-class names of `get_mermaid_code`, keyed by
lowercased hex value (the dictionary's second component, the canonical hex
spelling, is never used by the code that follows the table). -/
def predefined_name (color : String) : Option String :=
  if color = "#1e90ff" then some "blue"
  else if color = "#ff4500" then some "red"
  else if color = "#32cd32" then some "green"
  else if color = "#ffff00" then some "yellow"
  else if color = "#ffa500" then some "orange"
  else none

/-- Lookup in an insertion-ordered Python `dict` modelled as an association
list (ids/colors are never inserted twice with different positions, see
`dictSet`). -/
def dictGet? (d : List (String × String)) (k : String) : Option String :=
  (d.find? (fun p => p.1 = k)).map (fun p => p.2)

/-- Membership test for the same `dict` model. -/
def dictHasKey (d : List (String × String)) (k : String) : Bool :=
  d.any (fun p => p.1 = k)

/-- Assignment `d[k] = v` on an insertion-ordered `dict`: an existing key
keeps its position and gets the new value, a new key is appended. -/
def dictSet (d : List (String × String)) (k v : String) : List (String × String) :=
  if dictHasKey d k then d.map (fun p => if p.1 = k then (k, v) else p)
  else d ++ [(k, v)]

/-- First loop of the color-class pass of `get_mermaid_code` over the nodes:
for each node's lowercased fill, a predefined color gets its fixed name; a new
non-predefined color gets `"color" + str(len(color_classes) + 1)` — note the
length counts every distinct color assigned so far, predefined ones included —
and a color already in the dictionary keeps its name. -/
def build_color_classes : List Node → List (String × String) → List (String × String)
  | [], acc => acc
  | n :: rest, acc =>
    let color := py_lower n.fill
    let class_name :=
      match predefined_name color with
      | some nm => nm
      | none =>
        match dictGet? acc color with
        | none => "color" ++ Nat.repr (acc.length + 1)
        | some nm => nm
    build_color_classes rest (dictSet acc color class_name)

/-- `groups.setdefault(class_name, []).append(node.id)` on an
insertion-ordered `dict` of lists. -/
def addGroup (g : List (String × List String)) (k : String) (v : String) :
    List (String × List String) :=
  if g.any (fun p => p.1 = k) then
    g.map (fun p => if p.1 = k then (p.1, p.2 ++ [v]) else p)
  else g ++ [(k, [v])]

/-- Second loop of the color-class pass: group node ids by their class name,
in node order; the group order is the order of first use of each class.  The
lookup `color_classes[color]` cannot fail because the first loop over the same
node list inserted every node's color (a missing key would be a `KeyError`;
the embedding skips the node, a case no run reaches). -/
def build_groups (nodes : List Node) (cc : List (String × String)) :
    List (String × List String) :=
  nodes.foldl (fun g n =>
    match dictGet? cc (py_lower n.fill) with
    | some class_name => addGroup g class_name n.id
    | none => g) []

/-- The line `get_mermaid_code` appends for a node: `id[text];` for a
rectangle, `id{text};` for a diamond, and the rectangle form again in the
defensive `else` branch, all indented four spaces. -/
def node_line (n : Node) : String :=
  if n.shape = "rectangle" then "    " ++ n.id ++ "[" ++ n.text ++ "];"
  else if n.shape = "diamond" then "    " ++ n.id ++ "\x7b" ++ n.text ++ "\x7d;"
  else "    " ++ n.id ++ "[" ++ n.text ++ "];"

/-- The line `get_mermaid_code` appends for an edge: the labelled arrow when
`edge.label` is truthy (non-empty), the plain arrow otherwise. -/
def edge_line (e : Edge) : String :=
  if e.label ≠ "" then
    "    " ++ e.source ++ " -- " ++ e.label ++ " --> " ++ e.target ++ ";"
  else "    " ++ e.source ++ " --> " ++ e.target ++ ";"

/-- Line list built by `DiagramEditor.get_mermaid_code`, mirroring its
successive `lines.append` calls: fence and header, one line per node, one line
per edge, one `classDef` per color class in assignment order, one `class` line
per group, closing fence. -/
def DiagramEditor.get_mermaid_lines (s : DiagramEditor) : List String :=
  let lines : List String := []
  let lines := lines ++ ["```mermaid"]
  let lines := lines ++ ["graph TD;"]
  let lines := s.nodes.foldl (fun ls n => ls ++ [node_line n]) lines
  let lines := s.edges.foldl (fun ls e => ls ++ [edge_line e]) lines
  let color_classes := build_color_classes s.nodes []
  let lines := color_classes.foldl (fun ls p =>
    ls ++ ["    classDef " ++ p.2 ++ " fill:" ++ p.1 ++
           ",stroke:#000,stroke-width:2px;"]) lines
  let groups := build_groups s.nodes color_classes
  let lines := groups.foldl (fun ls p =>
    ls ++ ["    class " ++ String.intercalate "," p.2 ++ " " ++ p.1 ++ ";"]) lines
  lines ++ ["```"]

/-- `DiagramEditor.get_mermaid_code`: the joined text block. -/
def DiagramEditor.get_mermaid_code (s : DiagramEditor) : String :=
  String.intercalate "\n" s.get_mermaid_lines

/-- `get_mermaid_code` as a state transformer, the shape in which every other
event handler is embedded: the method assigns no field of the editor, the
nodes and the edges, so the state it leaves behind is the one it was called
on. -/
def DiagramEditor.get_mermaid_code_st (s : DiagramEditor) : String × DiagramEditor :=
  (s.get_mermaid_code, s)

/-! Decimal representation: `Nat.repr` (the embedding of Python's `str` on the
node counter) rewritten through `Nat.digits`, to obtain its injectivity. -/

/-- Decimal rendering of a natural number through `Nat.digits`; proved equal
to `Nat.repr` below. -/
def natStr (n : Nat) : String :=
  if n = 0 then "0"
  else (((Nat.digits 10 n).map Nat.digitChar).reverse).asString

theorem toDigitsCore_eq (n : Nat) : ∀ (f : Nat) (acc : List Char), n ≤ f →
    Nat.toDigitsCore 10 (f + 1) n acc =
      (if n = 0 then ['0']
       else ((Nat.digits 10 n).map Nat.digitChar).reverse) ++ acc := by
  induction n using Nat.strong_induction_on with
  | _ n ih =>
    intro f acc _
    rw [Nat.toDigitsCore]
    by_cases h0 : n = 0
    · subst h0; simp [Nat.digitChar]
    · rw [if_neg h0]
      by_cases hd : n / 10 = 0
      · have hlt : n < 10 := by omega
        simp only [hd, if_pos rfl]
        rw [Nat.digits_of_lt 10 n h0 hlt, Nat.mod_eq_of_lt hlt]
        simp
      · have h10 : 10 ≤ n := by
          rcases Nat.lt_or_ge n 10 with h | h
          · exact absurd (Nat.div_eq_of_lt h) hd
          · exact h
        rw [if_neg hd]
        obtain ⟨f2, rfl⟩ : ∃ f2, f = f2 + 1 := ⟨f - 1, by omega⟩
        rw [ih (n / 10) (Nat.div_lt_self (by omega) (by omega)) f2
              (Nat.digitChar (n % 10) :: acc) (by omega)]
        rw [if_neg hd]
        rw [@Nat.digits_def' 10 (by norm_num) n (Nat.pos_of_ne_zero h0)]
        simp

theorem repr_eq_natStr (n : Nat) : Nat.repr n = natStr n := by
  rw [Nat.repr, Nat.toDigits, toDigitsCore_eq n n [] (Nat.le_refl n), natStr]
  by_cases h0 : n = 0
  · simp [h0]; rfl
  · simp [h0]

theorem digitChar_inj_lt :
    ∀ a, a < 10 → ∀ b, b < 10 → Nat.digitChar a = Nat.digitChar b → a = b := by
  decide

theorem map_digitChar_inj : ∀ l1 l2 : List Nat, (∀ x ∈ l1, x < 10) →
    (∀ x ∈ l2, x < 10) → l1.map Nat.digitChar = l2.map Nat.digitChar → l1 = l2
  | [], [], _, _, _ => rfl
  | [], _ :: _, _, _, h => by simp at h
  | _ :: _, [], _, _, h => by simp at h
  | a :: l1, b :: l2, h1, h2, h => by
    simp only [List.map_cons, List.cons.injEq] at h
    have ha : a = b := digitChar_inj_lt a (h1 a (by simp)) b (h2 b (by simp)) h.1
    have := map_digitChar_inj l1 l2 (fun x hx => h1 x (by simp [hx]))
      (fun x hx => h2 x (by simp [hx])) h.2
    rw [ha, this]

theorem asString_inj {l1 l2 : List Char} (h : l1.asString = l2.asString) :
    l1 = l2 :=
  congrArg String.data h

theorem natStr_injective : ∀ a b : Nat, natStr a = natStr b → a = b := by
  have key : ∀ m : Nat, m ≠ 0 → natStr m ≠ "0" := by
    intro m hm hcontra
    rw [natStr, if_neg hm] at hcontra
    have hdata := @asString_inj _ ['0'] hcontra
    have hrev : (Nat.digits 10 m).map Nat.digitChar = ['0'] := by
      have := congrArg List.reverse hdata
      simpa using this
    have hlen : (Nat.digits 10 m).length = 1 := by
      have := congrArg List.length hrev
      simpa using this
    obtain ⟨d, hd⟩ := List.length_eq_one.mp hlen
    rw [hd] at hrev
    simp only [List.map_cons, List.map_nil, List.cons.injEq] at hrev
    have hd10 : d < 10 := Nat.digits_lt_base (by norm_num) (by rw [hd]; simp)
    have hd0 : d = 0 := digitChar_inj_lt d hd10 0 (by norm_num) (by
      simpa [Nat.digitChar] using hrev.1)
    have hzero : Nat.digits 10 m = [0] := by rw [hd, hd0]
    have hm0 := congrArg (Nat.ofDigits 10) hzero
    rw [Nat.ofDigits_digits] at hm0
    simp [Nat.ofDigits] at hm0
    exact hm hm0
  intro a b h
  by_cases ha : a = 0 <;> by_cases hb : b = 0
  · omega
  · exfalso
    apply key b hb
    rw [← h, natStr, if_pos ha]
  · exfalso
    apply key a ha
    rw [h, natStr, if_pos hb]
  · rw [natStr, natStr, if_neg ha, if_neg hb] at h
    have h2 := congrArg List.reverse (asString_inj h)
    simp only [List.reverse_reverse] at h2
    have h3 := map_digitChar_inj _ _
      (fun x hx => Nat.digits_lt_base (by norm_num) hx)
      (fun x hx => Nat.digits_lt_base (by norm_num) hx) h2
    have := congrArg (Nat.ofDigits 10) h3
    rwa [Nat.ofDigits_digits, Nat.ofDigits_digits] at this

theorem repr_injective {a b : Nat} (h : Nat.repr a = Nat.repr b) : a = b :=
  natStr_injective a b (by rwa [← repr_eq_natStr, ← repr_eq_natStr])

theorem repr_length_pos (n : Nat) : 0 < (Nat.repr n).length := by
  rw [repr_eq_natStr, natStr]
  by_cases h0 : n = 0
  · rw [if_pos h0]
    decide
  · rw [if_neg h0]
    have : Nat.digits 10 n ≠ [] := Nat.digits_ne_nil_iff_ne_zero.mpr h0
    simp only [List.asString, String.length]
    simp [List.length_reverse]
    exact List.length_pos.mpr this

theorem mk_node_id_small_inj :
    ∀ a, a < 26 → ∀ b, b < 26 → mk_node_id a = mk_node_id b → a = b := by
  decide

theorem mk_node_id_injective : Function.Injective mk_node_id := by
  intro a b h
  by_cases ha : a < 26 <;> by_cases hb : b < 26
  · exact mk_node_id_small_inj a ha b hb h
  · exfalso
    rw [mk_node_id, mk_node_id, if_pos ha, if_neg hb] at h
    have := congrArg String.length h
    rw [String.length_append] at this
    have h1 : (String.mk [Char.ofNat (65 + a)]).length = 1 := rfl
    have h2 : (("N" : String)).length = 1 := rfl
    have := repr_length_pos b
    omega
  · exfalso
    rw [mk_node_id, mk_node_id, if_neg ha, if_pos hb] at h
    have := congrArg String.length h
    rw [String.length_append] at this
    have h1 : (String.mk [Char.ofNat (65 + b)]).length = 1 := rfl
    have h2 : (("N" : String)).length = 1 := rfl
    have := repr_length_pos a
    omega
  · rw [mk_node_id, mk_node_id, if_neg ha, if_neg hb] at h
    have hdata := congrArg String.data h
    rw [String.data_append, String.data_append] at hdata
    have := List.append_cancel_left hdata
    exact repr_injective (by
      have : (Nat.repr a).data = (Nat.repr b).data := this
      exact String.ext this)

/-! A run of creation requests, used for the id claims. -/

/-- Repeated creation requests (each one is `create_node_at`; the context-menu
position is whatever the last right click recorded and does not affect ids).
The state component is kept even when a request raises, as the exception
leaves the already-performed mutations in place. -/
def run_creations (s : DiagramEditor) : List String → DiagramEditor
  | [] => s
  | shape :: rest => run_creations (s.create_node_at shape).1 rest

theorem create_node_at_effects (s : DiagramEditor) (shape : String) :
    (s.create_node_at shape).1.nodes =
      s.nodes ++ [Node.init (mk_node_id s.node_counter) s.context_menu_x
        s.context_menu_y "Node" shape "#FFFFFF"] ∧
    (s.create_node_at shape).1.node_counter = s.node_counter + 1 ∧
    (s.create_node_at shape).1.context_menu_x = s.context_menu_x ∧
    (s.create_node_at shape).1.context_menu_y = s.context_menu_y := by
  rw [DiagramEditor.create_node_at]
  simp only [DiagramEditor.get_new_node_id, DiagramEditor.start_editing_node,
    DiagramEditor.stop_editing]
  split <;> split <;> simp_all <;> split <;> simp_all <;> split <;> simp_all

theorem run_creations_ids (shapes : List String) : ∀ s : DiagramEditor,
    (run_creations s shapes).nodes.map (fun n => n.id) =
      s.nodes.map (fun n => n.id) ++
      (List.range shapes.length).map (fun i => mk_node_id (s.node_counter + i)) := by
  induction shapes with
  | nil => intro s; simp [run_creations]
  | cons shape rest ih =>
    intro s
    rw [run_creations, ih]
    obtain ⟨h1, h2, _, _⟩ := create_node_at_effects s shape
    rw [h1, h2]
    simp only [List.map_append, List.map_cons, List.map_nil, Node.init,
      List.length_cons, List.append_assoc]
    congr 1
    rw [List.range_succ_eq_map]
    simp only [List.map_cons, List.map_map, Nat.add_zero, List.singleton_append]
    congr 1
    apply List.map_congr_left
    intro i _
    simp only [Function.comp_apply]
    congr 1
    omega

/-! Claim theorems. -/

/-- Claim C1, counterexample.  The claim states that the N-th creation for
N > 26 yields the id `N<N>` and in particular the 27th yields `N27`.  In the
code the counter starts at 0 and the issued id is `"N" + str(counter)`, so
after 27 creations from a fresh editor the 27th node's id (index 26) is
`N26`, not `N27`. -/
theorem C1_counterexample :
    ((run_creations DiagramEditor.init (List.replicate 27 "rectangle")).nodes.map
      (fun n => n.id))[26]? = some "N26" ∧ ("N26" : String) ≠ "N27" := by
  constructor
  · rw [run_creations_ids (List.replicate 27 "rectangle") DiagramEditor.init]
    decide
  · decide

/-- Claim C1, amended: for every sequence of creation requests from a fresh
editor, the (k+1)-st creation (index k) yields the k-th uppercase letter
`chr(65+k)` while k < 26, and the id `"N" + str(k)` otherwise — that is, the
N-th creation for N > 26 yields `N<N-1>`, so the 27th node has id `N26`. -/
theorem C1_node_id_rule (shapes : List String) (k : Nat) (hk : k < shapes.length) :
    ((run_creations DiagramEditor.init shapes).nodes.map (fun n => n.id))[k]? =
      some (if k < 26 then String.mk [Char.ofNat (65 + k)]
            else "N" ++ Nat.repr k) := by
  rw [run_creations_ids shapes DiagramEditor.init]
  simp only [DiagramEditor.init, List.map_nil, List.nil_append]
  rw [List.getElem?_map, List.getElem?_range hk]
  simp [mk_node_id]

/-- Claim C1, witness: instantiating the amended rule at the 27th creation of
a concrete run yields the id `N26`. -/
theorem C1_node_id_rule_witness :
    ((run_creations DiagramEditor.init (List.replicate 27 "rectangle")).nodes.map
      (fun n => n.id))[26]? = some "N26" := by
  have h := C1_node_id_rule (List.replicate 27 "rectangle") 26 (by decide)
  rw [h]
  decide

/-- Claim C9: for every sequence of creation requests from a fresh editor the
generated node ids are pairwise distinct (the counter never repeats a value
and the id map is injective). -/
theorem C9_ids_pairwise_distinct (shapes : List String) :
    ((run_creations DiagramEditor.init shapes).nodes.map (fun n => n.id)).Nodup := by
  rw [run_creations_ids shapes DiagramEditor.init]
  simp only [DiagramEditor.init, List.map_nil, List.nil_append]
  apply List.Nodup.map
  · intro a b hab
    have := mk_node_id_injective hab
    omega
  · exact List.nodup_range _

/-- Claim C10: on the empty Diagram Model the serializer emits exactly the
opening fence, the `graph TD;` header and the closing fence, joined by
newlines, with no node, edge, `classDef` or `class` lines. -/
theorem C10_empty_serialization :
    DiagramEditor.init.get_mermaid_lines = ["```mermaid", "graph TD;", "```"] ∧
    DiagramEditor.init.get_mermaid_code = "```mermaid\ngraph TD;\n```" := by
  exact ⟨rfl, rfl⟩

/-- Claim C5: the serializer is a pure function of the model state — it
mutates no field of the editor, and a second invocation on the state it
returns yields the identical string. -/
theorem C5_serializer_pure (s : DiagramEditor) :
    s.get_mermaid_code_st.2 = s ∧
    s.get_mermaid_code_st.2.get_mermaid_code_st.1 = s.get_mermaid_code_st.1 :=
  ⟨rfl, rfl⟩

/-- For a node whose dimensions are set (every node of a recognized shape),
`contains_point` is the axis-aligned bounding-box test. -/
theorem contains_point_ok (n : Node) (w h : ℚ) (hw : n.width = some w)
    (hh : n.height = some h) (x y : ℚ) :
    n.contains_point x y =
      .ok (decide (n.x ≤ x ∧ x ≤ n.x + w ∧ n.y ≤ y ∧ y ≤ n.y + h)) := by
  unfold Node.contains_point
  rw [hw, hh]
  by_cases h1 : n.x ≤ x
  · by_cases h2 : x ≤ n.x + w
    · by_cases h3 : n.y ≤ y
      · simp [h1, h2, h3]
      · simp [h1, h2, h3]
    · simp [h1, h2]
  · simp [h1]

/-- A rectangle node created by the editor, used as a concrete fixture. -/
def nodeA : Node := Node.init "A" 0 0 "Node" "rectangle" "#FFFFFF"

/-- A diamond node fixture. -/
def nodeB : Node := Node.init "B" 200 10 "Node" "diamond" "#FFFFFF"

/-- Claim C3, counterexample.  The claim states that creation with an
unrecognized shape fails with `InvalidShapeError` and leaves the model
unchanged.  In the code no such exception exists: `Node.__init__` accepts the
shape, sets neither `width` nor `height`, the node is inserted into `nodes`,
and only the subsequent `start_editing_node` raises — an `AttributeError`
from `get_center`, after the model has already been mutated. -/
theorem C3_counterexample :
    (DiagramEditor.init.create_node_at "circle").2 ≠ some PyErr.invalidShapeError ∧
    (DiagramEditor.init.create_node_at "circle").1.nodes ≠ DiagramEditor.init.nodes := by
  decide

/-- Claim C3, amended: creating a node with a shape other than `rectangle` or
`diamond` (with no Entry overlay already open) raises `AttributeError`, not
`InvalidShapeError`, and the partial node — lacking width and height — has
already been inserted into the node collection when the error escapes. -/
theorem C3_invalid_shape (s : DiagramEditor) (shape : String)
    (h1 : shape ≠ "rectangle") (h2 : shape ≠ "diamond")
    (h3 : s.text_editor = false) :
    (s.create_node_at shape).2 = some PyErr.attributeError ∧
    (s.create_node_at shape).1.nodes =
      s.nodes ++ [Node.init (mk_node_id s.node_counter) s.context_menu_x
        s.context_menu_y "Node" shape "#FFFFFF"] := by
  refine ⟨?_, (create_node_at_effects s shape).1⟩
  rw [DiagramEditor.create_node_at]
  simp only [DiagramEditor.get_new_node_id, DiagramEditor.start_editing_node,
    DiagramEditor.stop_editing, Node.init, Node.get_center]
  simp [h1, h2, h3]
  split <;> simp_all

/-- Claim C3, witness for the amended theorem: a concrete invalid-shape
creation raising `AttributeError` with the node already inserted. -/
theorem C3_invalid_shape_witness :
    (DiagramEditor.init.create_node_at "circle").2 = some PyErr.attributeError ∧
    (DiagramEditor.init.create_node_at "circle").1.nodes =
      DiagramEditor.init.nodes ++ [Node.init (mk_node_id 0) 0 0 "Node" "circle"
        "#FFFFFF"] :=
  C3_invalid_shape DiagramEditor.init "circle" (by decide) (by decide) rfl

/-- The editor in connection mode with `nodeA` as pending source. -/
def stC4 : DiagramEditor :=
  { DiagramEditor.init with
    nodes := [nodeA], node_counter := 1, arrow_source := some "A" }

/-- Claim C4, counterexample.  The claim states that a pointer-down on the
pending connection source adds no edge and ends the `ConnectingFrom` state.
The edge list is indeed unchanged, but `on_left_click` merely returns on a
click on the source: `arrow_source` is not cleared, so the connection mode
persists. -/
theorem C4_counterexample :
    (stC4.on_left_click 10 10).1.edges = stC4.edges ∧
    ¬ ((stC4.on_left_click 10 10).1.arrow_source = none) := by
  have hcp : nodeA.contains_point 10 10 = .ok true := by
    rw [contains_point_ok nodeA 100 50 rfl rfl]
    simp only [Except.ok.injEq, decide_eq_true_eq]
    norm_num [nodeA, Node.init]
  have hnode : stC4.get_node_at 10 10 = .ok (some nodeA) := by
    rw [DiagramEditor.get_node_at]
    show get_node_at_list [nodeA] 10 10 = .ok (some nodeA)
    rw [get_node_at_list, hcp]
  have hclick : stC4.on_left_click 10 10 = (stC4, none) := by
    unfold DiagramEditor.on_left_click
    rw [show stC4.arrow_source = some "A" from rfl]
    rw [show stC4.get_node_at 10 10 = .ok (some nodeA) from hnode]
    simp [nodeA, Node.init]
  rw [hclick]
  exact ⟨rfl, by simp [stC4]⟩

/-- Claim C4, amended: when the hit test returns the pending connection
source itself, `on_left_click` leaves the whole editor state unchanged — in
particular no edge is appended, and `arrow_source` (the `ConnectingFrom`
state) stays set rather than being cleared. -/
theorem C4_self_click (s : DiagramEditor) (srcId : String) (nd : Node)
    (ex ey : ℚ) (h1 : s.arrow_source = some srcId)
    (h2 : s.get_node_at ex ey = .ok (some nd)) (h3 : nd.id = srcId) :
    s.on_left_click ex ey = (s, none) := by
  unfold DiagramEditor.on_left_click
  rw [h1, h2]
  simp [h3]

/-- Claim C4, witness: the amended theorem applied to the concrete fixture. -/
theorem C4_self_click_witness : stC4.on_left_click 10 10 = (stC4, none) := by
  apply C4_self_click stC4 "A" nodeA 10 10 rfl
  · rw [DiagramEditor.get_node_at]
    show get_node_at_list [nodeA] 10 10 = .ok (some nodeA)
    rw [get_node_at_list]
    rw [contains_point_ok nodeA 100 50 rfl rfl]
    have : (nodeA.x ≤ 10 ∧ (10:ℚ) ≤ nodeA.x + 100 ∧ nodeA.y ≤ 10 ∧
        (10:ℚ) ≤ nodeA.y + 50) := by norm_num [nodeA, Node.init]
    simp [this]
  · rfl

/-- Bounding-box containment as stated by the specification: the test used
for both shapes (diamond hit-testing deliberately uses the box, not the
polygon).  For nodes of recognized shape `getD` retrieves the actual
dimensions. -/
def pointInBBox (n : Node) (x y : ℚ) : Bool :=
  decide (n.x ≤ x ∧ x ≤ n.x + n.width.getD 0 ∧ n.y ≤ y ∧ y ≤ n.y + n.height.getD 0)

theorem contains_point_eq_pointInBBox (n : Node) (hw : n.width.isSome)
    (hh : n.height.isSome) (x y : ℚ) :
    n.contains_point x y = .ok (pointInBBox n x y) := by
  obtain ⟨w, hw⟩ := Option.isSome_iff_exists.mp hw
  obtain ⟨h, hh⟩ := Option.isSome_iff_exists.mp hh
  rw [contains_point_ok n w h hw hh, pointInBBox, hw, hh]
  rfl

theorem get_node_at_list_spec (x y : ℚ) : ∀ l : List Node,
    (∀ n ∈ l, n.width.isSome ∧ n.height.isSome) →
    ((∀ nd : Node, get_node_at_list l x y = .ok (some nd) ↔
        ∃ i : Nat, l[i]? = some nd ∧ pointInBBox nd x y = true ∧
          ∀ m ∈ l.take i, pointInBBox m x y = false) ∧
     (get_node_at_list l x y = .ok none ↔ ∀ n ∈ l, pointInBBox n x y = false)) := by
  intro l
  induction l with
  | nil =>
    intro _
    constructor
    · intro nd
      simp [get_node_at_list]
    · simp [get_node_at_list]
  | cons n l ih =>
    intro hval
    have hn := hval n (by simp)
    have hcp := contains_point_eq_pointInBBox n hn.1 hn.2 x y
    have ihl := ih (fun m hm => hval m (by simp [hm]))
    rw [get_node_at_list, hcp]
    cases hb : pointInBBox n x y with
    | true =>
      constructor
      · intro nd
        constructor
        · intro hnd
          simp only [Except.ok.injEq, Option.some.injEq] at hnd
          exact ⟨0, by simp [hnd], by rw [← hnd]; exact hb, by simp⟩
        · rintro ⟨i, hi, hbb, hprev⟩
          cases i with
          | zero =>
            simp only [List.getElem?_cons_zero, Option.some.injEq] at hi
            simp [hi]
          | succ j =>
            exact absurd hb (by simp [hprev n (by simp [List.take_succ_cons])])
      · constructor
        · intro hcontra
          simp at hcontra
        · intro hall
          exact absurd hb (by simp [hall n (by simp)])
    | false =>
      constructor
      · intro nd
        rw [(ihl.1 nd)]
        constructor
        · rintro ⟨i, hi, hbb, hprev⟩
          refine ⟨i + 1, by simpa using hi, hbb, ?_⟩
          intro m hm
          rw [List.take_succ_cons] at hm
          rcases List.mem_cons.mp hm with rfl | hm2
          · exact hb
          · exact hprev m hm2
        · rintro ⟨i, hi, hbb, hprev⟩
          cases i with
          | zero =>
            simp only [List.getElem?_cons_zero, Option.some.injEq] at hi
            rw [← hi] at hbb
            exact absurd hbb (by simp [hb])
          | succ j =>
            refine ⟨j, by simpa using hi, hbb, ?_⟩
            intro m hm
            exact hprev m (by simp [List.take_succ_cons, hm])
      · rw [ihl.2]
        constructor
        · intro hall
          intro m hm
          rcases List.mem_cons.mp hm with rfl | hm2
          · exact hb
          · exact hall m hm2
        · intro hall m hm
          exact hall m (by simp [hm])

/-- Claim C8: for every point and every model whose nodes carry their
dimensions (every node of a recognized shape), `get_node_at` raises nothing
and returns the first node in insertion order whose axis-aligned bounding box
contains the point — the box test being used for rectangles and diamonds
alike — and `none` when no bounding box contains it. -/
theorem C8_hit_test (s : DiagramEditor) (x y : ℚ)
    (hval : ∀ n ∈ s.nodes, n.width.isSome ∧ n.height.isSome) :
    (∀ nd : Node, s.get_node_at x y = .ok (some nd) ↔
        ∃ i : Nat, s.nodes[i]? = some nd ∧ pointInBBox nd x y = true ∧
          ∀ m ∈ s.nodes.take i, pointInBBox m x y = false) ∧
    (s.get_node_at x y = .ok none ↔ ∀ n ∈ s.nodes, pointInBBox n x y = false) :=
  get_node_at_list_spec x y s.nodes hval

/-- A second rectangle fixture overlapping `nodeA`, to witness the
first-match tie-break. -/
def nodeC : Node := Node.init "C" 0 0 "Node" "rectangle" "#FF0000"

/-- The editor holding two overlapping nodes. -/
def stC8 : DiagramEditor :=
  { DiagramEditor.init with nodes := [nodeA, nodeC], node_counter := 2 }

/-- Claim C8, witness: on two overlapping nodes the hit test returns the
first one in insertion order. -/
theorem C8_hit_test_witness : stC8.get_node_at 10 10 = .ok (some nodeA) := by
  apply ((C8_hit_test stC8 10 10 (by decide)).1 nodeA).mpr
  refine ⟨0, rfl, ?_, by simp⟩
  simp only [pointInBBox, decide_eq_true_eq]
  norm_num [nodeA, Node.init]

theorem foldl_append_map {α β : Type} (f : α → β) : ∀ (l : List α) (acc : List β),
    l.foldl (fun ls a => ls ++ [f a]) acc = acc ++ l.map f
  | [], acc => by simp
  | a :: l, acc => by
    rw [List.foldl_cons, foldl_append_map f l (acc ++ [f a])]
    simp

/-- The serializer's line list in closed form: header, node lines, edge
lines, `classDef` lines, `class` lines, closing fence. -/
theorem get_mermaid_lines_eq (s : DiagramEditor) :
    s.get_mermaid_lines =
      ["```mermaid", "graph TD;"] ++ s.nodes.map node_line ++
      s.edges.map edge_line ++
      (build_color_classes s.nodes []).map (fun p =>
        "    classDef " ++ p.2 ++ " fill:" ++ p.1 ++
        ",stroke:#000,stroke-width:2px;") ++
      (build_groups s.nodes (build_color_classes s.nodes [])).map (fun p =>
        "    class " ++ String.intercalate "," p.2 ++ " " ++ p.1 ++ ";") ++
      ["```"] := by
  rw [DiagramEditor.get_mermaid_lines]
  simp only [foldl_append_map, List.nil_append, List.append_assoc]
  rfl

/-- Claim C6: for every model of recognized shapes, the serializer output is
the header, then one line per node in model insertion order — `id[text];`
for a rectangle, `id{text};` for a diamond, indented four spaces — then one
line per edge in creation order — `source --> target;` without a label,
`source -- label --> target;` with one — followed by the style lines and the
closing fence. -/
theorem C6_line_structure (s : DiagramEditor)
    (hshape : ∀ n ∈ s.nodes, n.shape = "rectangle" ∨ n.shape = "diamond") :
    ∃ style_lines : List String,
      s.get_mermaid_lines =
        ["```mermaid", "graph TD;"] ++
        s.nodes.map (fun n =>
          if n.shape = "rectangle" then "    " ++ n.id ++ "[" ++ n.text ++ "];"
          else "    " ++ n.id ++ "\x7b" ++ n.text ++ "\x7d;") ++
        s.edges.map (fun e =>
          if e.label = "" then "    " ++ e.source ++ " --> " ++ e.target ++ ";"
          else "    " ++ e.source ++ " -- " ++ e.label ++ " --> " ++
            e.target ++ ";") ++
        style_lines ++ ["```"] := by
  refine ⟨(build_color_classes s.nodes []).map (fun p =>
      "    classDef " ++ p.2 ++ " fill:" ++ p.1 ++
      ",stroke:#000,stroke-width:2px;") ++
    (build_groups s.nodes (build_color_classes s.nodes [])).map (fun p =>
      "    class " ++ String.intercalate "," p.2 ++ " " ++ p.1 ++ ";"), ?_⟩
  rw [get_mermaid_lines_eq]
  have hnodes : s.nodes.map node_line = s.nodes.map (fun n =>
      if n.shape = "rectangle" then "    " ++ n.id ++ "[" ++ n.text ++ "];"
      else "    " ++ n.id ++ "\x7b" ++ n.text ++ "\x7d;") := by
    apply List.map_congr_left
    intro n hn
    rcases hshape n hn with hr | hd
    · simp [node_line, hr]
    · by_cases hr : n.shape = "rectangle"
      · simp [node_line, hr]
      · simp [node_line, hr, hd]
  have hedges : s.edges.map edge_line = s.edges.map (fun e =>
      if e.label = "" then "    " ++ e.source ++ " --> " ++ e.target ++ ";"
      else "    " ++ e.source ++ " -- " ++ e.label ++ " --> " ++
        e.target ++ ";") := by
    apply List.map_congr_left
    intro e _
    by_cases hl : e.label = ""
    · simp [edge_line, hl]
    · simp [edge_line, hl]
  rw [hnodes, hedges]
  simp [List.append_assoc]

/-- An edge fixture from `nodeA` to `nodeB` with no label (its rendered line
is irrelevant to serialization). -/
def edgeAB : Edge :=
  { source := "A", target := "B", label := "", line := ((50, 25), (250, 40)),
    label_pos := none }

/-- The editor holding the end-to-end scenario model: rectangle `A`, diamond
`B`, one unlabeled edge. -/
def stC6 : DiagramEditor :=
  { DiagramEditor.init with
    nodes := [nodeA, nodeB], edges := [edgeAB], node_counter := 2 }

/-- Claim C6, witness: the line structure instantiated on the concrete
rectangle/diamond/edge model, evaluating to the expected literal lines. -/
theorem C6_line_structure_witness :
    ∃ style_lines : List String,
      stC6.get_mermaid_lines =
        ["```mermaid", "graph TD;"] ++
        ["    A[Node];", "    B\x7bNode\x7d;"] ++ ["    A --> B;"] ++
        style_lines ++ ["```"] := by
  obtain ⟨style_lines, hsl⟩ := C6_line_structure stC6 (by decide)
  refine ⟨style_lines, ?_⟩
  rw [hsl]
  rfl

theorem get_center_isSome (n : Node) (hw : n.width.isSome) (hh : n.height.isSome) :
    n.get_center.isSome := by
  obtain ⟨w, hw⟩ := Option.isSome_iff_exists.mp hw
  obtain ⟨h, hh⟩ := Option.isSome_iff_exists.mp hh
  rw [Node.get_center, hw, hh]
  rfl

theorem findNode_map (g : Node → Node) (hg : ∀ n, (g n).id = n.id) (i : String) :
    ∀ l : List Node, findNode (l.map g) i = (findNode l i).map g := by
  intro l
  induction l with
  | nil => rfl
  | cons n l ih =>
    simp only [List.map_cons, findNode, List.find?_cons] at *
    rw [hg n]
    cases hc : decide (n.id = i)
    · simpa using ih
    · simp

theorem update_position_ok (nodes : List Node) (e : Edge) (sn tn : Node)
    (sc tc : ℚ × ℚ) (hs : findNode nodes e.source = some sn)
    (ht : findNode nodes e.target = some tn) (hsc : sn.get_center = some sc)
    (htc : tn.get_center = some tc) :
    e.update_position nodes =
      .ok { e with
            line := (sc, tc),
            label_pos := if e.label_pos.isSome then
                some ((sc.1 + tc.1) / 2, (sc.2 + tc.2) / 2) else e.label_pos } := by
  simp only [Edge.update_position, hs, ht]
  simp only [hsc, htc]

theorem update_edges_eq_map (nodes2 : List Node) (dragId : String) :
    ∀ edges : List Edge,
    (∀ e ∈ edges, (e.source = dragId ∨ e.target = dragId) →
      ∃ e2, e.update_position nodes2 = .ok e2) →
    update_edges nodes2 dragId edges =
      (edges.map (fun e =>
        if e.source = dragId ∨ e.target = dragId then
          match e.update_position nodes2 with
          | .ok e2 => e2
          | .error _ => e
        else e), none) := by
  intro edges
  induction edges with
  | nil => intro _; rfl
  | cons e rest ih =>
    intro hok
    rw [update_edges]
    by_cases hinc : e.source = dragId ∨ e.target = dragId
    · obtain ⟨e2, he2⟩ := hok e (by simp) hinc
      rw [if_pos hinc, he2, ih (fun f hf => hok f (by simp [hf]))]
      simp [hinc, he2]
    · rw [if_neg hinc, ih (fun f hf => hok f (by simp [hf]))]
      simp [hinc]

/-- Claim C7: after a pointer-move while a node is being dragged (in a state
whose nodes carry their dimensions and whose edges have resolvable
endpoints), no error is raised, and every edge whose source or target is the
dragged node ends up with its rendered line equal to the pair of current
centers of its source and target nodes, while every other edge is left
untouched at its position in the edge list. -/
theorem C7_drag_repositions_edges (s : DiagramEditor) (ex ey : ℚ)
    (dragId : String) (hdrag : s.dragging_node = some dragId)
    (hval : ∀ n ∈ s.nodes, n.width.isSome ∧ n.height.isSome)
    (hsrc : ∀ e ∈ s.edges, (findNode s.nodes e.source).isSome ∧
      (findNode s.nodes e.target).isSome)
    (hdragmem : (findNode s.nodes dragId).isSome) :
    (s.on_drag ex ey).2 = none ∧
    ∀ i : Nat, ∀ e : Edge, s.edges[i]? = some e →
      ((e.source = dragId ∨ e.target = dragId) →
        ∃ sn tn sc tc,
          findNode (s.on_drag ex ey).1.nodes e.source = some sn ∧
          findNode (s.on_drag ex ey).1.nodes e.target = some tn ∧
          sn.get_center = some sc ∧ tn.get_center = some tc ∧
          ∃ e2, (s.on_drag ex ey).1.edges[i]? = some e2 ∧
            e2.source = e.source ∧ e2.target = e.target ∧
            e2.label = e.label ∧ e2.line = (sc, tc)) ∧
      (¬ (e.source = dragId ∨ e.target = dragId) →
        (s.on_drag ex ey).1.edges[i]? = some e) := by
  set g : Node → Node := fun n =>
    if n.id = dragId then n.update_position (ex - s.drag_offset_x)
      (ey - s.drag_offset_y) else n with hgdef
  have hgid : ∀ n, (g n).id = n.id := by
    intro n
    rw [hgdef]
    by_cases hn : n.id = dragId <;> simp [hn, Node.update_position]
  have hgw : ∀ n, (g n).width = n.width := by
    intro n
    rw [hgdef]
    by_cases hn : n.id = dragId <;> simp [hn, Node.update_position]
  have hgh : ∀ n, (g n).height = n.height := by
    intro n
    rw [hgdef]
    by_cases hn : n.id = dragId <;> simp [hn, Node.update_position]
  have hfind : ∀ i : String, (findNode s.nodes i).isSome →
      ∃ m, findNode (s.nodes.map g) i = some (g m) ∧ m ∈ s.nodes := by
    intro i hi
    obtain ⟨m, hm⟩ := Option.isSome_iff_exists.mp hi
    exact ⟨m, by rw [findNode_map g hgid i s.nodes, hm]; rfl,
      List.mem_of_find?_eq_some hm⟩
  have hcentermap : ∀ m ∈ s.nodes, (g m).get_center.isSome := by
    intro m hm
    exact get_center_isSome (g m) (by rw [hgw]; exact (hval m hm).1)
      (by rw [hgh]; exact (hval m hm).2)
  have hup : ∀ e ∈ s.edges, (e.source = dragId ∨ e.target = dragId) →
      ∃ e2, e.update_position (s.nodes.map g) = .ok e2 := by
    intro e he _
    obtain ⟨ms, hms, hmems⟩ := hfind e.source (hsrc e he).1
    obtain ⟨mt, hmt, hmemt⟩ := hfind e.target (hsrc e he).2
    obtain ⟨sc, hsc⟩ := Option.isSome_iff_exists.mp (hcentermap ms hmems)
    obtain ⟨tc, htc⟩ := Option.isSome_iff_exists.mp (hcentermap mt hmemt)
    exact ⟨_, update_position_ok (s.nodes.map g) e (g ms) (g mt) sc tc
      hms hmt hsc htc⟩
  have hproj : (s.on_drag ex ey).1.nodes = s.nodes.map g ∧
      (s.on_drag ex ey).1.edges =
        (update_edges (s.nodes.map g) dragId s.edges).1 ∧
      (s.on_drag ex ey).2 = (update_edges (s.nodes.map g) dragId s.edges).2 := by
    rw [DiagramEditor.on_drag, hdrag]
    dsimp only
    split
    · obtain ⟨m, hm, hmem⟩ := hfind dragId hdragmem
      have hc := hcentermap m hmem
      obtain ⟨c, hc2⟩ := Option.isSome_iff_exists.mp hc
      rw [hm]
      dsimp only [Option.bind]
      rw [hc2]
      rcases hE : update_edges (s.nodes.map g) dragId s.edges with ⟨e2s, err⟩
      simp
    · rcases hE : update_edges (s.nodes.map g) dragId s.edges with ⟨e2s, err⟩
      simp
  rw [hproj.1, hproj.2.1, hproj.2.2,
    update_edges_eq_map (s.nodes.map g) dragId s.edges hup]
  refine ⟨rfl, ?_⟩
  intro i e hie
  constructor
  · intro hinc
    obtain ⟨ms, hms, hmems⟩ := hfind e.source
      (hsrc e (by exact List.getElem?_mem hie)).1
    obtain ⟨mt, hmt, hmemt⟩ := hfind e.target
      (hsrc e (by exact List.getElem?_mem hie)).2
    obtain ⟨sc, hsc⟩ := Option.isSome_iff_exists.mp (hcentermap ms hmems)
    obtain ⟨tc, htc⟩ := Option.isSome_iff_exists.mp (hcentermap mt hmemt)
    have hupd := update_position_ok (s.nodes.map g) e (g ms) (g mt) sc tc
      hms hmt hsc htc
    refine ⟨g ms, g mt, sc, tc, hms, hmt, hsc, htc,
      { e with
        line := (sc, tc),
        label_pos := if e.label_pos.isSome then
            some ((sc.1 + tc.1) / 2, (sc.2 + tc.2) / 2) else e.label_pos },
      ?_, rfl, rfl, rfl, rfl⟩
    rw [List.getElem?_map, hie]
    dsimp only [Option.map]
    rw [if_pos hinc, hupd]
  · intro hninc
    rw [List.getElem?_map, hie]
    simp [hninc]

/-- The editor dragging `nodeA` with one incident edge. -/
def stC7 : DiagramEditor :=
  { DiagramEditor.init with
    nodes := [nodeA, nodeB], edges := [edgeAB], node_counter := 2,
    dragging_node := some "A" }

/-- Claim C7, witness: the drag theorem instantiated on a concrete editor
with one edge incident to the dragged node. -/
theorem C7_drag_repositions_edges_witness :
    (stC7.on_drag 300 100).2 = none ∧
    ∀ i : Nat, ∀ e : Edge, stC7.edges[i]? = some e →
      ((e.source = "A" ∨ e.target = "A") →
        ∃ sn tn sc tc,
          findNode (stC7.on_drag 300 100).1.nodes e.source = some sn ∧
          findNode (stC7.on_drag 300 100).1.nodes e.target = some tn ∧
          sn.get_center = some sc ∧ tn.get_center = some tc ∧
          ∃ e2, (stC7.on_drag 300 100).1.edges[i]? = some e2 ∧
            e2.source = e.source ∧ e2.target = e.target ∧
            e2.label = e.label ∧ e2.line = (sc, tc)) ∧
      (¬ (e.source = "A" ∨ e.target = "A") →
        (stC7.on_drag 300 100).1.edges[i]? = some e) :=
  C7_drag_repositions_edges stC7 300 100 "A" rfl (by decide) (by decide)
    (by decide)

/-! Color-class table: dictionary lemmas and the declarative description the
amended claim C2 is compared against. -/

theorem dictHasKey_true_iff (acc : List (String × String)) (c : String) :
    dictHasKey acc c = true ↔ c ∈ acc.map Prod.fst := by
  rw [dictHasKey, List.any_eq_true]
  constructor
  · rintro ⟨p, hp, hc⟩
    simp only [decide_eq_true_eq] at hc
    rw [← hc]
    exact List.mem_map_of_mem Prod.fst hp
  · intro hc
    obtain ⟨p, hp, hpc⟩ := List.mem_map.mp hc
    exact ⟨p, hp, by simp [hpc]⟩

theorem dictHasKey_false_iff (acc : List (String × String)) (c : String) :
    dictHasKey acc c = false ↔ c ∉ acc.map Prod.fst := by
  rw [← dictHasKey_true_iff acc c]
  simp

theorem dictGet?_eq_none (acc : List (String × String)) (c : String)
    (h : dictHasKey acc c = false) : dictGet? acc c = none := by
  rw [dictGet?, List.find?_eq_none.mpr]
  · rfl
  · intro p hp
    simp only [decide_eq_true_eq]
    intro hc
    exact (dictHasKey_false_iff acc c).mp h (by
      rw [← hc]
      exact List.mem_map_of_mem Prod.fst hp)

theorem dictGet?_mem (acc : List (String × String)) (c v : String)
    (h : dictGet? acc c = some v) : (c, v) ∈ acc := by
  rw [dictGet?] at h
  obtain ⟨p, hp, hpv⟩ := Option.map_eq_some'.mp h
  have hkey : p.1 = c := by
    have := List.find?_some hp
    simpa using this
  have hmem := List.mem_of_find?_eq_some hp
  have : p = (c, v) := by
    cases p
    simp only at hkey hpv
    rw [hkey, hpv]
  rwa [this] at hmem

theorem dictHasKey_true_exists (acc : List (String × String)) (c : String)
    (h : dictHasKey acc c = true) : ∃ v, (c, v) ∈ acc := by
  rw [dictHasKey, List.any_eq_true] at h
  obtain ⟨p, hp, hc⟩ := h
  simp only [decide_eq_true_eq] at hc
  exact ⟨p.2, by rw [← hc]; exact hp⟩

theorem map_set_not_mem (c v : String) :
    ∀ acc : List (String × String), c ∉ acc.map Prod.fst →
    acc.map (fun p => if p.1 = c then (c, v) else p) = acc
  | [], _ => rfl
  | p :: acc, h => by
    have hp : p.1 ≠ c := by
      intro hc
      exact h (by rw [← hc]; exact List.mem_map_of_mem Prod.fst (by simp))
    rw [List.map_cons, if_neg hp,
      map_set_not_mem c v acc (fun hc => h (by simp [hc]))]

theorem dictSet_mem_self (c v : String) :
    ∀ acc : List (String × String), (acc.map Prod.fst).Nodup →
    (c, v) ∈ acc → dictSet acc c v = acc := by
  have hmap : ∀ acc : List (String × String), (acc.map Prod.fst).Nodup →
      (c, v) ∈ acc →
      acc.map (fun p => if p.1 = c then (c, v) else p) = acc := by
    intro acc
    induction acc with
    | nil => intro _ h; cases h
    | cons p acc ih =>
      intro hnd hmem
      rw [List.map_cons] at hnd ⊢
      obtain ⟨hnd1, hnd2⟩ := List.nodup_cons.mp hnd
      rcases List.mem_cons.mp hmem with rfl | hmem2
      · rw [if_pos rfl, map_set_not_mem c v acc (by simpa using hnd1)]
      · have hp : p.1 ≠ c := by
          intro hc
          exact hnd1 (by rw [hc]; exact List.mem_map_of_mem Prod.fst hmem2)
        rw [if_neg hp, ih hnd2 hmem2]
  intro acc hnd hmem
  rw [dictSet, if_pos ?_, hmap acc hnd hmem]
  rw [dictHasKey, List.any_eq_true]
  exact ⟨(c, v), hmem, by simp⟩

theorem dictSet_append (acc : List (String × String)) (c v : String)
    (h : dictHasKey acc c = false) : dictSet acc c v = acc ++ [(c, v)] := by
  rw [dictSet, h]
  rfl

theorem dictHasKey_append_single (acc : List (String × String)) (c v x : String) :
    dictHasKey (acc ++ [(c, v)]) x = (dictHasKey acc x || decide (x = c)) := by
  rw [dictHasKey, dictHasKey, List.any_append]
  simp [eq_comm]

/-- The color-class table as the amended claim describes it: the distinct
lowercased fills in order of first appearance, each predefined color mapped to
its fixed name, each other color mapped to `color<k+1>` where `k` counts the
distinct colors (predefined or not) that appeared before it; `off` is the
number of distinct colors already consumed. -/
def cc_spec : List String → Nat → List (String × String)
  | [], _ => []
  | c :: rest, off =>
    (c, match predefined_name c with
        | some nm => nm
        | none => "color" ++ Nat.repr (off + 1)) ::
      cc_spec (rest.filter (fun x => x ≠ c)) (off + 1)
termination_by l _ => l.length
decreasing_by
  simp only [List.length_cons]
  exact Nat.lt_succ_of_le (List.length_filter_le _ _)

theorem dictGet?_of_mem (c v : String) :
    ∀ acc : List (String × String), (acc.map Prod.fst).Nodup →
    (c, v) ∈ acc → dictGet? acc c = some v
  | [], _, hmem => absurd hmem (by simp)
  | p :: acc, hnd, hmem => by
    rw [List.map_cons] at hnd
    obtain ⟨hnd1, hnd2⟩ := List.nodup_cons.mp hnd
    rw [dictGet?, List.find?_cons]
    rcases List.mem_cons.mp hmem with rfl | hmem2
    · simp
    · have hp : p.1 ≠ c := by
        intro hc
        exact hnd1 (by rw [hc]; exact List.mem_map_of_mem Prod.fst hmem2)
      rw [show (decide (p.1 = c)) = false from by simp [hp]]
      exact dictGet?_of_mem c v acc hnd2 hmem2

theorem build_cc_eq_spec : ∀ (l : List Node) (acc : List (String × String)),
    (acc.map Prod.fst).Nodup →
    (∀ p ∈ acc, ∀ nm, predefined_name p.1 = some nm → p.2 = nm) →
    build_color_classes l acc =
      acc ++ cc_spec ((l.map (fun n => py_lower n.fill)).filter
        (fun c => ! dictHasKey acc c)) acc.length := by
  intro l
  induction l with
  | nil =>
    intro acc _ _
    simp [build_color_classes, cc_spec]
  | cons n rest ih =>
    intro acc hnd hvals
    rw [build_color_classes]
    by_cases hk : dictHasKey acc (py_lower n.fill) = true
    · have hfadd : (List.map (fun n => py_lower n.fill) (n :: rest)).filter
          (fun c => ! dictHasKey acc c) =
          (rest.map (fun n => py_lower n.fill)).filter
            (fun c => ! dictHasKey acc c) := by
        rw [List.map_cons]
        exact List.filter_cons_of_neg (by simp [hk])
      obtain ⟨v, hv⟩ := dictHasKey_true_exists acc _ hk
      rcases hpre : predefined_name (py_lower n.fill) with _ | nm
      · rw [dictGet?_of_mem (py_lower n.fill) v acc hnd hv]
        dsimp only
        rw [dictSet_mem_self (py_lower n.fill) v acc hnd hv]
        rw [ih acc hnd hvals, hfadd]
      · dsimp only
        have hvnm : v = nm := hvals (py_lower n.fill, v) hv nm hpre
        rw [dictSet_mem_self (py_lower n.fill) nm acc hnd (hvnm ▸ hv)]
        rw [ih acc hnd hvals, hfadd]
    · have hkf : dictHasKey acc (py_lower n.fill) = false := by
        revert hk
        cases dictHasKey acc (py_lower n.fill) <;> simp
      have hnotmem : py_lower n.fill ∉ acc.map Prod.fst :=
        (dictHasKey_false_iff acc _).mp hkf
      have hstep : ∀ nm2 : String,
          (∀ nm, predefined_name (py_lower n.fill) = some nm → nm2 = nm) →
          build_color_classes rest (dictSet acc (py_lower n.fill) nm2) =
            (acc ++ [(py_lower n.fill, nm2)]) ++
              cc_spec (((rest.map (fun n => py_lower n.fill)).filter
                  (fun c => ! dictHasKey acc c)).filter
                (fun x => x ≠ py_lower n.fill)) (acc.length + 1) := by
        intro nm2 hnm2
        have hnd2 : ((acc ++ [(py_lower n.fill, nm2)]).map Prod.fst).Nodup := by
          rw [List.map_append, List.nodup_append]
          refine ⟨hnd, by simp, ?_⟩
          intro a ha hb
          simp only [List.map_cons, List.map_nil, List.mem_singleton] at hb
          rw [hb] at ha
          exact hnotmem ha
        have hvals2 : ∀ p ∈ acc ++ [(py_lower n.fill, nm2)], ∀ nm,
            predefined_name p.1 = some nm → p.2 = nm := by
          intro p hp nm hnm
          rcases List.mem_append.mp hp with hold | hnew
          · exact hvals p hold nm hnm
          · simp only [List.mem_singleton] at hnew
            rw [hnew]
            rw [hnew] at hnm
            exact hnm2 nm hnm
        have hfeq : (rest.map (fun n => py_lower n.fill)).filter
            (fun c => ! dictHasKey (acc ++ [(py_lower n.fill, nm2)]) c) =
            ((rest.map (fun n => py_lower n.fill)).filter
              (fun c => ! dictHasKey acc c)).filter
              (fun x => x ≠ py_lower n.fill) := by
          rw [List.filter_filter]
          apply List.filter_congr
          intro x _
          rw [dictHasKey_append_single acc (py_lower n.fill) nm2 x, Bool.not_or,
            decide_not]
          exact Bool.and_comm _ _
        rw [dictSet_append acc _ nm2 hkf, ih _ hnd2 hvals2, hfeq]
        simp only [List.length_append, List.length_cons, List.length_nil]
      have hfilter_cons : (List.map (fun n => py_lower n.fill) (n :: rest)).filter
          (fun c => ! dictHasKey acc c) =
          py_lower n.fill :: (rest.map (fun n => py_lower n.fill)).filter
            (fun c => ! dictHasKey acc c) := by
        rw [List.map_cons]
        exact List.filter_cons_of_pos (by simp [hkf])
      rcases hpre : predefined_name (py_lower n.fill) with _ | nm
      · rw [dictGet?_eq_none acc _ hkf]
        dsimp only
        rw [hstep ("color" ++ Nat.repr (acc.length + 1))
          (fun nm hnm => absurd (hpre.symm.trans hnm) (by simp))]
        rw [hfilter_cons, cc_spec, hpre]
        dsimp only
        simp [List.append_assoc]
      · dsimp only
        rw [hstep nm (fun nm3 hnm3 =>
          Option.some.inj (hpre.symm.trans hnm3))]
        rw [hfilter_cons, cc_spec, hpre]
        dsimp only
        simp [List.append_assoc]

/-- A rectangle filled with the predefined color `#1E90FF`. -/
def nodeBlue1 : Node := Node.init "A" 0 0 "Node" "rectangle" "#1E90FF"

/-- A second rectangle filled with `#1E90FF`. -/
def nodeBlue2 : Node := Node.init "B" 0 60 "Node" "rectangle" "#1E90FF"

/-- A rectangle filled with the non-predefined color `#123456`. -/
def nodeOther : Node := Node.init "C" 0 120 "Node" "rectangle" "#123456"

/-- Whether a line starts with the given marker (character-wise prefix
test). -/
def line_starts (ln marker : String) : Bool :=
  marker.data.isPrefixOf ln.data

/-- The `classDef` lines of the serializer output. -/
def classDef_lines (s : DiagramEditor) : List String :=
  s.get_mermaid_lines.filter (fun ln => line_starts ln "    classDef")

/-- The `class` assignment lines of the serializer output (the trailing space
excludes the `classDef` lines). -/
def class_lines (s : DiagramEditor) : List String :=
  s.get_mermaid_lines.filter (fun ln => line_starts ln "    class ")

/-- All six creation orders of the two `#1E90FF` nodes and the `#123456`
node. -/
def scenario_orders : List (List Node) :=
  [[nodeBlue1, nodeBlue2, nodeOther], [nodeBlue1, nodeOther, nodeBlue2],
   [nodeOther, nodeBlue1, nodeBlue2], [nodeBlue2, nodeBlue1, nodeOther],
   [nodeBlue2, nodeOther, nodeBlue1], [nodeOther, nodeBlue2, nodeBlue1]]

/-- What serialization of the two-blue-one-custom model actually emits, as a
function of the creation order: exactly two `classDef` lines — `blue` plus
`color1` when the `#123456` node comes first, `color2` otherwise, because the
generated index counts every distinct color seen so far, predefined ones
included — and two `class` lines partitioning the ids by fill, each class in
order of first use. -/
abbrev C2_scenario (l : List Node) : Prop :=
  classDef_lines { DiagramEditor.init with nodes := l, node_counter := 3 } =
    (if l.head?.map (fun n => n.fill) = some "#123456" then
      ["    classDef color1 fill:#123456,stroke:#000,stroke-width:2px;",
       "    classDef blue fill:#1e90ff,stroke:#000,stroke-width:2px;"]
    else
      ["    classDef blue fill:#1e90ff,stroke:#000,stroke-width:2px;",
       "    classDef color2 fill:#123456,stroke:#000,stroke-width:2px;"]) ∧
  class_lines { DiagramEditor.init with nodes := l, node_counter := 3 } =
    (if l.head?.map (fun n => n.fill) = some "#123456" then
      ["    class C color1;",
       "    class " ++ String.intercalate ","
         ((l.filter (fun n => n.fill = "#1E90FF")).map (fun n => n.id)) ++
         " blue;"]
    else
      ["    class " ++ String.intercalate ","
         ((l.filter (fun n => n.fill = "#1E90FF")).map (fun n => n.id)) ++
         " blue;",
       "    class C color2;"])

/-- The editor holding the two blue nodes before the custom-colored one. -/
def stC2 : DiagramEditor :=
  { DiagramEditor.init with
    nodes := [nodeBlue1, nodeBlue2, nodeOther], node_counter := 3 }

/-- Claim C2, counterexample.  The claim states that for two nodes filled
`#1E90FF` and one filled `#123456`, in any creation order, serialization
emits exactly the two `classDef` lines named `blue` and `color1`.  When a
blue node is created first, the `#123456` class is named `color2` — the
generated index is `len(color_classes) + 1`, and the dictionary already
holds the predefined blue entry. -/
theorem C2_counterexample :
    ("    classDef color2 fill:#123456,stroke:#000,stroke-width:2px;" ∈
      stC2.get_mermaid_lines) ∧
    ¬ ("    classDef color1 fill:#123456,stroke:#000,stroke-width:2px;" ∈
      stC2.get_mermaid_lines) ∧
    (stC2.get_mermaid_lines.filter
      (fun ln => line_starts ln "    classDef")).length = 2 := by
  decide

/-- Claim C2, amended.  General part: the color-class pass equals the
declarative table `cc_spec` — distinct lowercased fills in order of first
appearance, predefined colors keeping their fixed names, every other color
named `color<k+1>` where `k` counts all distinct colors (predefined included)
that appeared before it.  Scenario part: for every creation order of two
`#1E90FF` nodes and one `#123456` node, serialization emits exactly two
`classDef` lines — `blue` and `color1` if the custom color comes first,
`blue` and `color2` otherwise — and two `class` lines partitioning the three
ids by fill. -/
theorem C2_color_class_assignment :
    (∀ s : DiagramEditor, build_color_classes s.nodes [] =
      cc_spec (s.nodes.map (fun n => py_lower n.fill)) 0) ∧
    (∀ l ∈ scenario_orders, C2_scenario l) := by
  constructor
  · intro s
    rw [build_cc_eq_spec s.nodes [] (by simp) (by simp)]
    have hfilt : List.filter (fun c => ! dictHasKey ([] : List (String × String)) c)
        (s.nodes.map (fun n => py_lower n.fill)) =
        s.nodes.map (fun n => py_lower n.fill) :=
      List.filter_eq_self.mpr (fun a _ => rfl)
    rw [hfilt]
    rfl
  · decide

/-- Claim C2, witness: the amended theorem instantiated at the order with the
custom color first (yielding `color1`) — hypotheses discharged by
computation. -/
theorem C2_color_class_assignment_witness :
    C2_scenario [nodeOther, nodeBlue1, nodeBlue2] :=
  C2_color_class_assignment.2 [nodeOther, nodeBlue1, nodeBlue2] (by decide)

end GUIToMermaid
